import Mathlib

/-!
# Verification of the TLDR core pipeline

A shallow embedding, in Lean 4, of the algorithmic core of the TLDR
repository: the token-budgeted text segmenter (`src/tldr/ai/tokenizer.py`),
the per-minute token rate limiter (`src/tldr/utils/rate_limiter.py`), the
rate-limited request executor and summarization orchestrator
(`src/tldr/ai/summarizer.py`), and the event extractor with calendar-link
generation (`src/tldr/calendar/events.py`).

Texts are modelled as `List Char` (Python `str`), the external tokenizer
(`count_tokens`, a tiktoken oracle) as an arbitrary function
`tok : List Char → Nat`, integer configuration values as `Int`, and wall
clock times as `ℚ`.  Recursions whose termination the Python source does
not guarantee are given an explicit fuel argument and return `none` when
fuel runs out, so that divergence of the source is observable rather than
silently repaired.
-/

/-! ## Segmenter (`src/tldr/ai/tokenizer.py`) -/

/-- Whitespace characters removed by Python's `str.strip()` (ASCII part),
which is also the character class matched by the regex `\s` on ASCII text. -/
def pyWS (c : Char) : Bool :=
  c == ' ' || c == '\t' || c == '\n' || c == '\r' || c == '\x0b' || c == '\x0c'

/-- Python `s.strip()`: drop leading and trailing whitespace. -/
def pyStrip (s : List Char) : List Char :=
  ((s.dropWhile pyWS).reverse.dropWhile pyWS).reverse

/-- The non-whitespace characters of a text, in order.  Used to state that
segmentation loses or duplicates nothing outside trimmed whitespace. -/
def nonWS (s : List Char) : List Char :=
  s.filter (fun c => !(pyWS c))

/-- Python `text[a:b]` for `0 ≤ a ≤ b` (the only shape the source uses). -/
def pySlice (t : List Char) (a b : Nat) : List Char :=
  (t.take b).drop a

/-- The break characters of `_binary_search_split`'s backward walk:
`text[i] in (' ', '\n', '.', '!', '?')`. -/
def py_break_char (c : Char) : Bool :=
  c == ' ' || c == '\n' || c == '.' || c == '!' || c == '?'

/-- The `while low < mid_point` loop of `_binary_search_split`
(tokenizer.py lines 89–99), state `(low, high, mid_point)`.  Each iteration
tests `count_tokens(text[low:mid_point]) > max_tokens`, moves `high` or
`low` to `mid_point` accordingly, recomputes the midpoint, and stops when
it no longer moves.  Fuel-indexed; `none` on fuel exhaustion (the caller
passes `len(text) + 1`, which always suffices since `high - low` shrinks). -/
def bsLoop (tok : List Char → Nat) (t : List Char) (maxT : Int) :
    Nat → Nat → Nat → Nat → Option Nat
  | 0, _, _, _ => none
  | fuel+1, low, high, mid =>
    if low < mid then
      let lh := if (tok (pySlice t low mid) : Int) > maxT then (low, mid) else (mid, high)
      let newMid := (lh.1 + lh.2) / 2
      if newMid = mid then some mid
      else bsLoop tok t maxT fuel lh.1 lh.2 newMid
    else some mid

/-- The backward walk `for i in range(mid_point, max(0, mid_point - 50), -1)`
(tokenizer.py lines 103–106): starting at index `i` and taking `steps`
downward steps, return `some (i + 1)` at the first break character, else
`none`.  Indices stay in bounds whenever `i < t.length`, so the `getD`
default (a non-break character) is never consulted on the source's inputs. -/
def scanBack (t : List Char) : Nat → Nat → Option Nat
  | _, 0 => none
  | i, steps+1 =>
    if py_break_char (t.getD i '\x00') then some (i+1) else scanBack t (i-1) steps

/-- `break_point` as computed from `mid_point`: the backward walk covers
`range(mid_point, max(0, mid_point - 50), -1)`, i.e. `min mid 50` indices
starting at `mid_point`; if no break character is found, `break_point`
stays `mid_point`. -/
def break_point_of (t : List Char) (mid : Nat) : Nat :=
  (scanBack t mid (min mid 50)).getD mid

/-- `_binary_search_split(text, max_tokens)` (tokenizer.py lines 72–114).
If the whole text fits, return it; otherwise run the midpoint loop, walk
back to a break character, emit the stripped prefix and recurse on the
stripped remainder.  The Python recursion is *not* structurally decreasing
(`break_point` can be `0`, in which case `remaining` may equal `text`), so
the embedding is fuel-indexed and returns `none` when fuel runs out. -/
def binary_search_split (tok : List Char → Nat) :
    Nat → List Char → Int → Option (List (List Char))
  | 0, _, _ => none
  | fuel+1, t, maxT =>
    if (tok t : Int) ≤ maxT then some [t]
    else
      match bsLoop tok t maxT (t.length + 1) 0 t.length (t.length / 2) with
      | none => none
      | some mid =>
        let bp := break_point_of t mid
        let seg := pyStrip (t.take bp)
        let remaining := pyStrip (t.drop bp)
        if remaining = [] then some [seg]
        else
          match binary_search_split tok fuel remaining maxT with
          | none => none
          | some rest => some (seg :: rest)

/-- `segment_text(text, max_tokens, response_buffer, context_buffer,
previous_context)` (tokenizer.py lines 33–69).  The fast path compares
`combined_tokens ≤ max_tokens - response_buffer`; the split budget is
`max_tokens - total_buffer` where `total_buffer` additionally includes
`context_buffer` when `previous_context` is non-empty. -/
def segment_text (tok : List Char → Nat) (fuel : Nat) (text : List Char)
    (max_tokens response_buffer context_buffer : Int)
    (previous_context : List Char) : Option (List (List Char)) :=
  let total_buffer :=
    if previous_context ≠ [] then response_buffer + context_buffer else response_buffer
  let combined_tokens : Int :=
    if previous_context ≠ [] then (tok text : Int) + tok previous_context
    else (tok text : Int)
  if combined_tokens ≤ max_tokens - response_buffer then some [text]
  else binary_search_split tok fuel text (max_tokens - total_buffer)

/-- A concrete token oracle for witnesses and counterexamples: one token
per character (a legitimate instance of the spec's TokenOracle interface). -/
def lenTok (s : List Char) : Nat := s.length

/-! ### Character preservation of the splitter (claim C1) -/

theorem nonWS_dropWhile (s : List Char) : nonWS (s.dropWhile pyWS) = nonWS s := by
  induction s with
  | nil => rfl
  | cons c t ih =>
    by_cases h : pyWS c
    · rw [List.dropWhile_cons, if_pos h, ih]
      simp [nonWS, List.filter_cons, h]
    · rw [List.dropWhile_cons, if_neg h]

theorem nonWS_reverse (s : List Char) : nonWS s.reverse = (nonWS s).reverse := by
  simp [nonWS, List.filter_reverse]

theorem nonWS_pyStrip (s : List Char) : nonWS (pyStrip s) = nonWS s := by
  unfold pyStrip
  rw [nonWS_reverse, nonWS_dropWhile, nonWS_reverse, List.reverse_reverse, nonWS_dropWhile]

theorem nonWS_append (a b : List Char) : nonWS (a ++ b) = nonWS a ++ nonWS b := by
  simp [nonWS, List.filter_append]

theorem binary_search_split_nonWS (tok : List Char → Nat) :
    ∀ (fuel : Nat) (t : List Char) (maxT : Int) (cs : List (List Char)),
      binary_search_split tok fuel t maxT = some cs →
      nonWS cs.flatten = nonWS t := by
  intro fuel
  induction fuel with
  | zero =>
    intro t maxT cs h
    simp [binary_search_split] at h
  | succ n ih =>
    intro t maxT cs h
    rw [binary_search_split] at h
    split at h
    · cases h
      simp [List.flatten]
    · revert h
      cases hloop : bsLoop tok t maxT (t.length + 1) 0 t.length (t.length / 2) with
      | none => intro h; cases h
      | some mid =>
        intro h
        dsimp only at h
        split at h
        · -- remaining is empty: a single stripped chunk, the dropped part is whitespace
          cases h
          rename_i hrem
          have hdrop : nonWS (t.drop (break_point_of t mid)) = [] := by
            rw [← nonWS_pyStrip, hrem]; rfl
          calc nonWS ([pyStrip (t.take (break_point_of t mid))].flatten)
              = nonWS (pyStrip (t.take (break_point_of t mid))) := by simp [List.flatten]
            _ = nonWS (t.take (break_point_of t mid)) := nonWS_pyStrip _
            _ = nonWS (t.take (break_point_of t mid)) ++
                  nonWS (t.drop (break_point_of t mid)) := by rw [hdrop, List.append_nil]
            _ = nonWS (t.take (break_point_of t mid) ++ t.drop (break_point_of t mid)) :=
                (nonWS_append _ _).symm
            _ = nonWS t := by rw [List.take_append_drop]
        · -- non-empty remainder: recurse
          revert h
          cases hrec : binary_search_split tok n (pyStrip (t.drop (break_point_of t mid))) maxT with
          | none => intro h; cases h
          | some rest =>
            intro h
            cases h
            have hr : nonWS rest.flatten = nonWS (t.drop (break_point_of t mid)) := by
              rw [ih _ _ _ hrec, nonWS_pyStrip]
            calc nonWS ((pyStrip (t.take (break_point_of t mid)) :: rest).flatten)
                = nonWS (pyStrip (t.take (break_point_of t mid)) ++ rest.flatten) := by
                  simp [List.flatten]
              _ = nonWS (pyStrip (t.take (break_point_of t mid))) ++ nonWS rest.flatten :=
                  nonWS_append _ _
              _ = nonWS (t.take (break_point_of t mid)) ++
                    nonWS (t.drop (break_point_of t mid)) := by
                  rw [nonWS_pyStrip, hr]
              _ = nonWS (t.take (break_point_of t mid) ++ t.drop (break_point_of t mid)) :=
                  (nonWS_append _ _).symm
              _ = nonWS t := by rw [List.take_append_drop]

/-- Claim C1: whenever `segment_text` returns a chunk list, the
concatenation of the chunks reproduces the original text up to whitespace
trimmed at chunk boundaries: the non-whitespace characters of the joined
chunks are exactly the non-whitespace characters of the input, in the same
order, so nothing outside trimmed whitespace is lost or duplicated and
chunk order preserves text order. -/
theorem segment_text_preserves_text (tok : List Char → Nat) (fuel : Nat)
    (t : List Char) (mt rb cb : Int) (pc : List Char) (cs : List (List Char))
    (h : segment_text tok fuel t mt rb cb pc = some cs) :
    nonWS cs.flatten = nonWS t := by
  unfold segment_text at h
  by_cases hpc : pc ≠ []
  · simp only [if_pos hpc] at h
    by_cases hfit : ((tok t : Int) + tok pc) ≤ mt - rb
    · rw [if_pos hfit] at h
      cases h
      simp
    · rw [if_neg hfit] at h
      exact binary_search_split_nonWS tok fuel t _ cs h
  · simp only [if_neg hpc] at h
    by_cases hfit : (tok t : Int) ≤ mt - rb
    · rw [if_pos hfit] at h
      cases h
      simp
    · rw [if_neg hfit] at h
      exact binary_search_split_nonWS tok fuel t _ cs h

/-- Witness for C1 at a concrete splitting input: the text
`"aaaa bbbb cc"` with budget 12, response buffer 2 splits into two chunks
whose joined non-whitespace content equals that of the input. -/
theorem segment_text_preserves_text_witness :
    segment_text lenTok 13 "aaaa bbbb cc".toList 12 2 0 [] =
      some ["aaaa bbbb".toList, "cc".toList] ∧
    nonWS (["aaaa bbbb".toList, "cc".toList] : List (List Char)).flatten =
      nonWS "aaaa bbbb cc".toList := by
  have hseg : segment_text lenTok 13 "aaaa bbbb cc".toList 12 2 0 [] =
      some ["aaaa bbbb".toList, "cc".toList] := by decide
  exact ⟨hseg, segment_text_preserves_text lenTok 13 _ 12 2 0 [] _ hseg⟩

/-! ### Chunks can exceed the token budget (claim C2) -/

/-- A tokenizer in which every character costs two tokens — a legitimate
oracle instance: `cl100k_base` does assign multi-token encodings to single
(multi-byte) characters. -/
def twoTok (s : List Char) : Nat := 2 * s.length

theorem binary_search_split_ab_diverges :
    ∀ fuel, binary_search_split twoTok fuel "ab".toList 1 = none := by
  intro fuel
  induction fuel with
  | zero => rfl
  | succ n ih =>
    rw [show binary_search_split twoTok (n + 1) "ab".toList 1 =
        (match binary_search_split twoTok n "ab".toList 1 with
          | none => none
          | some rest => some (([] : List Char) :: rest)) from rfl]
    rw [ih]

/-- Claim C2 (refuted by the code): the midpoint loop of
`_binary_search_split` tests `count_tokens(text[low:mid_point])` — the
token count of the *delta* from the previous `low`, not of the whole
prefix — so the emitted prefix can exceed the budget.  Under the
one-token-per-character oracle with the positive budget 3, the ten-token
text `"abcdefghij"` splits into `["abcd", "efghi", "j"]`: the chunks
`"abcd"` (4 tokens) and `"efghi"` (5 tokens) both exceed the budget and
both are splittable (far larger than one token-bearing unit), contradicting
`segment_text`'s own docstring "Segment text into chunks that fit within
token limits".  Moreover the recursion does not always terminate: under
the two-tokens-per-character oracle with the positive budget 1, the text
`"ab"` makes the midpoint loop converge to offset 0, so the emitted prefix
is empty and the unchanged remainder recurses forever — the fuel-indexed
embedding returns `none` at every fuel. -/
theorem binary_search_split_exceeds_budget :
    (binary_search_split lenTok 11 "abcdefghij".toList 3 =
      some ["abcd".toList, "efghi".toList, "j".toList] ∧
    3 < lenTok "abcd".toList ∧ 3 < lenTok "efghi".toList ∧ (0 : Int) < 3) ∧
    ((∀ fuel, binary_search_split twoTok fuel "ab".toList 1 = none) ∧ (0 : Int) < 1) := by
  exact ⟨⟨by decide, by decide, by decide, by decide⟩,
    binary_search_split_ab_diverges, by decide⟩

/-! ### The fast path returns the whole text (claim C3) -/

/-- Claim C3: if `tokens(text) + tokens(previous_context)` (the context
counted only when non-empty, in which case `context_reserve` is also added
to the reserve total) is at most `max_tokens - response_reserve` minus that
context reserve, then `segment_text` returns exactly one chunk equal to the
whole input text, for every fuel value — in particular for fuel 0, showing
that no splitting work is performed. -/
theorem segment_text_single_chunk (tok : List Char → Nat) (fuel : Nat)
    (t : List Char) (mt rb cb : Int) (pc : List Char)
    (hcb : 0 ≤ cb)
    (h : (if pc ≠ [] then (tok t : Int) + tok pc else (tok t : Int)) ≤
        mt - rb - (if pc ≠ [] then cb else 0)) :
    segment_text tok fuel t mt rb cb pc = some [t] := by
  have h0 : (0 : Int) ≤ (if pc ≠ [] then cb else 0) := by
    split
    · exact hcb
    · exact le_refl 0
  have hc : (if pc ≠ [] then (tok t : Int) + tok pc else (tok t : Int)) ≤ mt - rb := by
    linarith
  unfold segment_text
  dsimp only
  rw [if_pos hc]

/-- Witness for C3 at a concrete input: `"hi"` (2 tokens) with non-empty
previous context `"yo"` (2 tokens), `max_tokens = 100`,
`response_reserve = 10`, `context_reserve = 20`, fuel 0. -/
theorem segment_text_single_chunk_witness :
    (0 : Int) ≤ 20 ∧
    (if ("yo".toList : List Char) ≠ [] then
        (lenTok "hi".toList : Int) + lenTok "yo".toList
      else (lenTok "hi".toList : Int)) ≤
      100 - 10 - (if ("yo".toList : List Char) ≠ [] then 20 else 0) ∧
    segment_text lenTok 0 "hi".toList 100 10 20 "yo".toList = some ["hi".toList] :=
  ⟨by decide, by decide,
    segment_text_single_chunk lenTok 0 "hi".toList 100 10 20 "yo".toList
      (by decide) (by decide)⟩

/-! ## RateLimiter (`src/tldr/utils/rate_limiter.py`)

The limiter's mutable window is the pair `(_tokens_used, _window_start)`.
A call to `acquire` is modelled as a pure step at an explicit wall-clock
time `now : ℚ`; `time.sleep(d)` advances the clock by exactly `d`, and no
other thread intervenes inside the critical section (the code holds
`self._lock` for the whole body), so the model is the single-caller
sequential semantics of the lock-protected code. -/

structure RateLimiter where
  tokens_per_minute : Nat
  tokens_used : Nat
  window_start : ℚ
deriving DecidableEq

/-- `_reset_if_needed` (rate_limiter.py lines 25–30): rotate the window
when a minute has passed. -/
def RateLimiter.reset_if_needed (s : RateLimiter) (now : ℚ) : RateLimiter :=
  if 60 ≤ now - s.window_start then ⟨s.tokens_per_minute, 0, now⟩ else s

/-- `acquire` (rate_limiter.py lines 32–52).  Returns the new state and the
number of seconds slept.  In the over-quota branch the code sleeps
`max(0, 60 - elapsed)` and — only when that is positive — zeroes
`_tokens_used` and restamps `_window_start` with the post-sleep clock,
then unconditionally adds `tokens`. -/
def RateLimiter.acquire (s : RateLimiter) (now : ℚ) (tokens : Nat) :
    RateLimiter × ℚ :=
  let s1 := s.reset_if_needed now
  if s1.tokens_per_minute < s1.tokens_used + tokens then
    let elapsed := now - s1.window_start
    let sleep_time := max 0 (60 - elapsed)
    if 0 < sleep_time then
      (⟨s1.tokens_per_minute, tokens, now + sleep_time⟩, sleep_time)
    else
      (⟨s1.tokens_per_minute, s1.tokens_used + tokens, s1.window_start⟩, 0)
  else
    (⟨s1.tokens_per_minute, s1.tokens_used + tokens, s1.window_start⟩, 0)

/-- Run a sequence of `acquire` calls, given as (time, tokens) pairs, and
collect the seconds slept by each call. -/
def runCalls (s : RateLimiter) : List (ℚ × Nat) → RateLimiter × List ℚ
  | [] => (s, [])
  | c :: cs =>
    let r := s.acquire c.1 c.2
    let rest := runCalls r.1 cs
    (rest.1, r.2 :: rest.2)

/-- Total tokens of a call list. -/
def tokSum (l : List (ℚ × Nat)) : Nat := (l.map (fun c => c.2)).sum

/-- The calls' cumulative token counts never exceed `tpm` within any
60-second window: for every call `j`, the tokens of the calls at times
within the window `((time j) - 60, time j]` sum to at most `tpm`. -/
def callsOk (tpm : Nat) (cs : List (ℚ × Nat)) : Prop :=
  ∀ j : Fin cs.length,
    tokSum ((cs.take (j.1 + 1)).filter (fun e => decide ((cs.get j).1 - e.1 < 60))) ≤ tpm

/-- Call times are nondecreasing. -/
def timesMono (cs : List (ℚ × Nat)) : Prop :=
  List.Pairwise (fun a b => a.1 ≤ b.1) cs

/-- Invariant tying a limiter state to the calls still to be processed:
any future call within the current window fits together with the tokens
already consumed and all calls before it. -/
def winInv (tpm : Nat) (s : RateLimiter) (cs : List (ℚ × Nat)) : Prop :=
  ∀ j : Fin cs.length, (cs.get j).1 < s.window_start + 60 →
    s.tokens_used + tokSum (cs.take (j.1 + 1)) ≤ tpm

theorem tokSum_cons (c : ℚ × Nat) (l : List (ℚ × Nat)) :
    tokSum (c :: l) = c.2 + tokSum l := by
  simp [tokSum]

theorem tokSum_filter_le_cons (p : ℚ × Nat → Bool) (c : ℚ × Nat) (l : List (ℚ × Nat)) :
    tokSum (List.filter p l) ≤ tokSum (List.filter p (c :: l)) := by
  rw [List.filter_cons]
  split
  · rw [tokSum_cons]
    exact Nat.le_add_left _ _
  · exact le_refl _

theorem runCalls_no_sleep_aux (tpm : Nat) :
    ∀ (cs : List (ℚ × Nat)) (s : RateLimiter),
      s.tokens_per_minute = tpm →
      callsOk tpm cs →
      timesMono cs →
      winInv tpm s cs →
      ∀ d ∈ (runCalls s cs).2, d = 0 := by
  intro cs
  induction cs with
  | nil =>
    intro s _ _ _ _ d hd
    simp [runCalls] at hd
  | cons c cs ih =>
    intro s htpm hok hmono hinv d hd
    obtain ⟨hhead, htail⟩ := List.pairwise_cons.mp hmono
    -- the first call fits within the quota, whichever reset branch is taken
    by_cases hr : (60 : ℚ) ≤ c.1 - s.window_start
    · -- window rotates: tokens_used is zeroed, window_start becomes c.1
      have hfit : tpm < 0 + c.2 → False := by
        intro hlt
        have h0 := hok ⟨0, Nat.succ_pos _⟩
        simp only [List.take, List.get, List.filter_cons] at h0
        rw [tokSum] at h0
        simp at h0
        omega
      have hacq : s.acquire c.1 c.2 = (⟨tpm, 0 + c.2, c.1⟩, 0) := by
        unfold RateLimiter.acquire
        simp only [RateLimiter.reset_if_needed, if_pos hr, htpm]
        rw [if_neg (fun h => hfit h)]
      rw [runCalls] at hd
      simp only [hacq] at hd
      rcases List.mem_cons.mp hd with h0 | hmem
      · exact h0
      · refine ih ⟨tpm, 0 + c.2, c.1⟩ rfl ?_ htail ?_ d hmem
        · -- callsOk for the tail: windows over fewer calls sum to less
          intro j
          have hj := hok ⟨j.1 + 1, Nat.succ_lt_succ j.2⟩
          calc tokSum ((cs.take (j.1 + 1)).filter
                (fun e => decide ((cs.get j).1 - e.1 < 60)))
              ≤ tokSum ((c :: cs.take (j.1 + 1)).filter
                (fun e => decide ((cs.get j).1 - e.1 < 60))) :=
                tokSum_filter_le_cons _ _ _
            _ ≤ tpm := hj
        · -- winInv for the tail after the rotation
          intro j hjw
          have hj := hok ⟨j.1 + 1, Nat.succ_lt_succ j.2⟩
          have hfull : ((c :: cs.take (j.1 + 1)).filter
              (fun e => decide ((cs.get j).1 - e.1 < 60))) = c :: cs.take (j.1 + 1) := by
            apply List.filter_eq_self.mpr
            intro a ha
            rw [decide_eq_true_eq]
            have hac : c.1 ≤ a.1 := by
              rcases List.mem_cons.mp ha with h | h
              · rw [h]
              · exact hhead a (List.take_subset _ _ h)
            have : (cs.get j).1 < c.1 + 60 := hjw
            linarith
          have hj' : tokSum (c :: cs.take (j.1 + 1)) ≤ tpm := by
            rw [show ((c :: cs).take (j.1 + 1 + 1)) = c :: cs.take (j.1 + 1) from rfl] at hj
            rw [show ((c :: cs).get ⟨j.1 + 1, Nat.succ_lt_succ j.2⟩) = cs.get j from rfl] at hj
            rw [hfull] at hj
            exact hj
          rw [tokSum_cons] at hj'
          simp only [RateLimiter.tokens_used, RateLimiter.window_start] at *
          omega
    · -- no rotation: the invariant covers the call directly
      have hwin0 : c.1 < s.window_start + 60 := by
        have := not_le.mp hr
        linarith
      have hfit : s.tokens_used + c.2 ≤ tpm := by
        have h0 := hinv ⟨0, Nat.succ_pos _⟩ hwin0
        simp only [List.take, List.get] at h0
        have hc : tokSum [c] = c.2 := by simp [tokSum]
        rw [hc] at h0
        exact h0
      have hacq : s.acquire c.1 c.2 = (⟨tpm, s.tokens_used + c.2, s.window_start⟩, 0) := by
        unfold RateLimiter.acquire
        simp only [RateLimiter.reset_if_needed, if_neg hr, htpm]
        rw [if_neg (by omega)]
      rw [runCalls] at hd
      simp only [hacq] at hd
      rcases List.mem_cons.mp hd with h0 | hmem
      · exact h0
      · refine ih ⟨tpm, s.tokens_used + c.2, s.window_start⟩ rfl ?_ htail ?_ d hmem
        · intro j
          have hj := hok ⟨j.1 + 1, Nat.succ_lt_succ j.2⟩
          calc tokSum ((cs.take (j.1 + 1)).filter
                (fun e => decide ((cs.get j).1 - e.1 < 60)))
              ≤ tokSum ((c :: cs.take (j.1 + 1)).filter
                (fun e => decide ((cs.get j).1 - e.1 < 60))) :=
                tokSum_filter_le_cons _ _ _
            _ ≤ tpm := hj
        · intro j hjw
          have hj := hinv ⟨j.1 + 1, Nat.succ_lt_succ j.2⟩ hjw
          rw [show ((c :: cs).take (j.1 + 1 + 1)) = c :: cs.take (j.1 + 1) from rfl] at hj
          rw [tokSum_cons] at hj
          simp only [RateLimiter.tokens_used, RateLimiter.window_start] at *
          omega

/-- Core computation of the over-quota branch of `acquire`: when the
(post-rotation) consumption would exceed the quota, the call sleeps a
positive amount of at most 60 seconds (given a monotone clock), zeroes the
window, restamps `window_start` with the post-sleep time and grants the
request. -/
theorem acquire_overflow_spec (s : RateLimiter) (t : ℚ) (τ : Nat)
    (hst : s.window_start ≤ t)
    (hover : s.tokens_per_minute < (s.reset_if_needed t).tokens_used + τ) :
    ∃ d : ℚ, s.acquire t τ = (⟨s.tokens_per_minute, τ, t + d⟩, d) ∧ 0 < d ∧ d ≤ 60 := by
  unfold RateLimiter.acquire
  by_cases hr : (60 : ℚ) ≤ t - s.window_start
  · simp only [RateLimiter.reset_if_needed, if_pos hr] at hover ⊢
    rw [if_pos hover]
    have h0 : t - t = (0 : ℚ) := by ring
    have hmax : max (0 : ℚ) (60 - (t - t)) = 60 := by
      rw [h0]
      norm_num
    rw [if_pos (by rw [hmax]; norm_num)]
    refine ⟨max (0 : ℚ) (60 - (t - t)), rfl, by rw [hmax]; norm_num, by rw [hmax]⟩
  · simp only [RateLimiter.reset_if_needed, if_neg hr] at hover ⊢
    rw [if_pos hover]
    have hlt : t - s.window_start < 60 := not_le.mp hr
    have hge : (0 : ℚ) ≤ t - s.window_start := by linarith
    have hmax : max (0 : ℚ) (60 - (t - s.window_start)) = 60 - (t - s.window_start) :=
      max_eq_right (by linarith)
    have hpos : 0 < max (0 : ℚ) (60 - (t - s.window_start)) := by
      rw [hmax]
      linarith
    rw [if_pos hpos]
    exact ⟨max (0 : ℚ) (60 - (t - s.window_start)), rfl, hpos, by rw [hmax]; linarith⟩

/-- Claim C4: (1) for every sequence of `acquire` calls, at nondecreasing
times no earlier than the limiter's initial window start, whose cumulative
token counts never exceed `tokens_per_minute` within any 60-second window,
no call sleeps; (2) any single call that would exceed the quota (after the
lazy rotation check) sleeps for a positive duration of at most 60 seconds
and resets the window unconditionally before granting — `tokens_used`
becomes exactly the granted `tokens` and `window_start` the post-sleep
time — even when the natural 60-second rotation condition had not been
met. -/
theorem rate_limiter_window_behavior
    (tpm : Nat) (w0 : ℚ) (cs : List (ℚ × Nat))
    (hok : callsOk tpm cs) (hmono : timesMono cs) (hw0 : ∀ c ∈ cs, w0 ≤ c.1)
    (s : RateLimiter) (t : ℚ) (τ : Nat)
    (hst : s.window_start ≤ t)
    (hover : s.tokens_per_minute < (s.reset_if_needed t).tokens_used + τ) :
    (∀ d ∈ (runCalls ⟨tpm, 0, w0⟩ cs).2, d = 0) ∧
    (0 < (s.acquire t τ).2 ∧ (s.acquire t τ).2 ≤ 60 ∧
      (s.acquire t τ).1.tokens_used = τ ∧
      (s.acquire t τ).1.window_start = t + (s.acquire t τ).2) := by
  constructor
  · refine runCalls_no_sleep_aux tpm cs ⟨tpm, 0, w0⟩ rfl hok hmono ?_
    intro j hjw
    have hj := hok j
    have hfull : ((cs.take (j.1 + 1)).filter
        (fun e => decide ((cs.get j).1 - e.1 < 60))) = cs.take (j.1 + 1) := by
      apply List.filter_eq_self.mpr
      intro a ha
      rw [decide_eq_true_eq]
      have haw : w0 ≤ a.1 := hw0 a (List.take_subset _ _ ha)
      have : (cs.get j).1 < w0 + 60 := hjw
      linarith
    rw [hfull] at hj
    simpa using hj
  · obtain ⟨d, hacq, hdpos, hdle⟩ := acquire_overflow_spec s t τ hst hover
    rw [hacq]
    exact ⟨hdpos, hdle, rfl, rfl⟩

/-- Witness for C4: the calls at times 0 and 30 for 10 and 20 tokens under
quota 100 never sleep; a limiter at 90/100 tokens receiving a further
20-token request at time 30 sleeps and resets. -/
theorem rate_limiter_window_behavior_witness :
    (callsOk 100 [((0 : ℚ), 10), ((30 : ℚ), 20)] ∧
      timesMono [((0 : ℚ), 10), ((30 : ℚ), 20)] ∧
      (∀ c ∈ [((0 : ℚ), 10), ((30 : ℚ), 20)], (0 : ℚ) ≤ c.1) ∧
      (RateLimiter.mk 100 90 0).window_start ≤ (30 : ℚ) ∧
      (100 : Nat) < ((RateLimiter.mk 100 90 0).reset_if_needed 30).tokens_used + 20) ∧
    (∀ d ∈ (runCalls ⟨100, 0, 0⟩ [((0 : ℚ), 10), ((30 : ℚ), 20)]).2, d = 0) ∧
    (0 < ((RateLimiter.mk 100 90 0).acquire 30 20).2 ∧
      ((RateLimiter.mk 100 90 0).acquire 30 20).2 ≤ 60 ∧
      ((RateLimiter.mk 100 90 0).acquire 30 20).1.tokens_used = 20 ∧
      ((RateLimiter.mk 100 90 0).acquire 30 20).1.window_start =
        30 + ((RateLimiter.mk 100 90 0).acquire 30 20).2) := by
  have hok : callsOk 100 [((0 : ℚ), 10), ((30 : ℚ), 20)] := by
    intro j
    fin_cases j <;> norm_num [tokSum, List.filter]
  have hmono : timesMono [((0 : ℚ), 10), ((30 : ℚ), 20)] := by
    unfold timesMono
    norm_num
  have hw0 : ∀ c ∈ [((0 : ℚ), 10), ((30 : ℚ), 20)], (0 : ℚ) ≤ c.1 := by
    norm_num
  have hst : (RateLimiter.mk 100 90 0).window_start ≤ (30 : ℚ) := by
    norm_num
  have hover : (100 : Nat) < ((RateLimiter.mk 100 90 0).reset_if_needed 30).tokens_used + 20 := by
    norm_num [RateLimiter.reset_if_needed]
  refine ⟨⟨hok, hmono, hw0, hst, hover⟩, ?_⟩
  exact rate_limiter_window_behavior 100 0 [((0 : ℚ), 10), ((30 : ℚ), 20)]
    hok hmono hw0 (RateLimiter.mk 100 90 0) 30 20 hst hover

/-- Claim C5: `acquire` never rejects: a request whose token cost exceeds
`tokens_per_minute` outright goes through exactly one wait-and-reset cycle
— a sleep of positive length at most 60 seconds — and is then granted
anyway (`tokens_used` becomes the full requested amount), with the quota
unchanged; the model function is total, reflecting that the Python method
raises no exception. -/
theorem rate_limiter_never_rejects (s : RateLimiter) (t : ℚ) (τ : Nat)
    (hst : s.window_start ≤ t) (hτ : s.tokens_per_minute < τ) :
    (s.acquire t τ).1.tokens_used = τ ∧
    (s.acquire t τ).1.tokens_per_minute = s.tokens_per_minute ∧
    0 < (s.acquire t τ).2 ∧ (s.acquire t τ).2 ≤ 60 ∧
    (s.acquire t τ).1.window_start = t + (s.acquire t τ).2 := by
  have hover : s.tokens_per_minute < (s.reset_if_needed t).tokens_used + τ := by
    have := Nat.le_add_left τ (s.reset_if_needed t).tokens_used
    omega
  obtain ⟨d, hacq, hdpos, hdle⟩ := acquire_overflow_spec s t τ hst hover
  rw [hacq]
  exact ⟨rfl, rfl, hdpos, hdle, rfl⟩

/-- Witness for C5: a fresh limiter with quota 100 granted a 250-token
request at time 10. -/
theorem rate_limiter_never_rejects_witness :
    (RateLimiter.mk 100 0 0).window_start ≤ (10 : ℚ) ∧ (100 : Nat) < 250 ∧
    ((RateLimiter.mk 100 0 0).acquire 10 250).1.tokens_used = 250 ∧
    ((RateLimiter.mk 100 0 0).acquire 10 250).1.tokens_per_minute = 100 ∧
    0 < ((RateLimiter.mk 100 0 0).acquire 10 250).2 ∧
    ((RateLimiter.mk 100 0 0).acquire 10 250).2 ≤ 60 ∧
    ((RateLimiter.mk 100 0 0).acquire 10 250).1.window_start =
      10 + ((RateLimiter.mk 100 0 0).acquire 10 250).2 := by
  have h := rate_limiter_never_rejects (RateLimiter.mk 100 0 0) 10 250
    (by norm_num) (by norm_num)
  exact ⟨by norm_num, by norm_num, h.1, h.2.1, h.2.2.1, h.2.2.2.1, h.2.2.2.2⟩

/-! ## Summarizer (`src/tldr/ai/summarizer.py`)

The outbound LLM is an oracle `llm : List Char → List Char`; the
observable effects of `_call_openai` — the rate-limiter acquisition and
the outbound API call — are recorded as an event list. -/

/-- One observable effect of `_call_openai`. -/
inductive ApiEvent where
  | acq (tokens : Nat)
  | outbound (prompt : List Char)
deriving DecidableEq

/-- `estimated_tokens = int(1.5 * count_tokens(prompt))` (summarizer.py
line 63).  `1.5 * n` is exact in binary floating point for every
realistic token count (`3n < 2^53`) and Python's `int` truncates, so the
estimate is `⌊3n/2⌋`, written here with natural (flooring) division. -/
def estimatedTokens (tok : List Char → Nat) (prompt : List Char) : Nat :=
  3 * tok prompt / 2

/-- `_call_openai(prompt)` (summarizer.py lines 53–73): acquire the
estimated tokens from the shared rate limiter, then issue the outbound
call.  Returns the response text together with the events emitted, in
program order. -/
def callOpenAI (tok : List Char → Nat) (llm : List Char → List Char)
    (prompt : List Char) : List Char × List ApiEvent :=
  (llm prompt, [ApiEvent.acq (estimatedTokens tok prompt), ApiEvent.outbound prompt])

/-- `_build_chunk_prompt(chunk, chunk_num, total_chunks)` (summarizer.py
lines 122–137): the chunk instruction, with a positional marker when more
than one chunk exists. -/
def build_chunk_prompt (chunk : List Char) (chunk_num total_chunks : Nat) : List Char :=
  let context :=
    if total_chunks > 1 then
      ("(Part " ++ toString chunk_num ++ " of " ++ toString total_chunks ++ ") ").toList
    else []
  "Summarize the following email ".toList ++ context ++
    ("ensuring that:\n1. Action items are listed with bullet points\n2. Important dates, times, and locations are preserved\n3. Key information is captured concisely\n\nAlso, identify any events in the format:\nEvent Detected: [Event Name] on [YYYY-MM-DD] at [HH:MM] at [Location]\n\nEmail content:\n").toList
    ++ chunk

/-- `_build_consolidation_prompt(combined_summaries)` (summarizer.py
lines 139–149). -/
def build_consolidation_prompt (combined : List Char) : List Char :=
  ("Consolidate the following partial summaries into one coherent summary.\nEnsure:\n1. Bullet points are used for action items\n2. All dates, times, and locations are preserved\n3. Event Detected entries are preserved exactly\n4. Remove any redundancy\n\nPartial summaries:\n").toList
    ++ combined

/-- Python `sep.join(strings)`. -/
def joinSep (sep : List Char) : List (List Char) → List Char
  | [] => []
  | [x] => x
  | x :: xs => x ++ sep ++ joinSep sep xs

/-- The per-chunk loop of `summarize` (summarizer.py lines 100–106) over
the 1-based enumerated chunks: returns the chunk summaries in order, the
accumulated `count_tokens(prompt) + count_tokens(summary)` total, and the
emitted events in order. -/
def chunkLoop (tok : List Char → Nat) (llm : List Char → List Char) (n : Nat) :
    List (Nat × List Char) → List (List Char) × Nat × List ApiEvent
  | [] => ([], 0, [])
  | (i, chunk) :: rest =>
    let prompt := build_chunk_prompt chunk i n
    let r := callOpenAI tok llm prompt
    let acc := chunkLoop tok llm n rest
    (r.1 :: acc.1, tok prompt + tok r.1 + acc.2.1, r.2 ++ acc.2.2)

/-- Result of one `summarize` invocation: the final text, the accumulated
token estimate, and the full event trace. -/
structure SummaryRun where
  text : List Char
  estimated_tokens_used : Nat
  events : List ApiEvent
deriving DecidableEq

/-- `summarize(email_content)` (summarizer.py lines 75–120): segment with
the configured budgets and empty previous context, summarize each chunk,
and — exactly when more than one chunk summary was produced — issue one
consolidation call on the double-newline join; otherwise the single chunk
summary (or `""` for no chunks) is the final text. -/
def summarize (tok : List Char → Nat) (llm : List Char → List Char) (fuel : Nat)
    (max_tokens_per_request response_buffer context_buffer : Int)
    (email_content : List Char) : Option SummaryRun :=
  match segment_text tok fuel email_content max_tokens_per_request
      response_buffer context_buffer [] with
  | none => none
  | some chunks =>
    let res := chunkLoop tok llm chunks.length (chunks.enum.map (fun p => (p.1 + 1, p.2)))
    if res.1.length > 1 then
      let combined := joinSep "\n\n".toList res.1
      let final_prompt := build_consolidation_prompt combined
      let r := callOpenAI tok llm final_prompt
      some ⟨r.1, res.2.1 + tok final_prompt + tok r.1, res.2.2 ++ r.2⟩
    else
      some ⟨res.1.headD [], res.2.1, res.2.2⟩

/-- Number of outbound API calls in an event trace. -/
def countOutbound (evs : List ApiEvent) : Nat :=
  (evs.filter (fun e => match e with | ApiEvent.outbound _ => true | _ => false)).length

/-- The trace is a sequence of (acquire, outbound) pairs in which each
acquisition is for exactly `⌊3·tokens(prompt)/2⌋` tokens of the prompt of
the immediately following outbound call. -/
def pairedAcquires (tok : List Char → Nat) : List ApiEvent → Prop
  | [] => True
  | ApiEvent.acq n :: ApiEvent.outbound p :: rest =>
      n = 3 * tok p / 2 ∧ pairedAcquires tok rest
  | _ => False

theorem list_two_step_induction {α : Type} (motive : List α → Prop) (h0 : motive [])
    (h1 : ∀ x, motive [x]) (h2 : ∀ x y rest, motive rest → motive (x :: y :: rest)) :
    ∀ l, motive l := by
  have key : ∀ n (l : List α), l.length ≤ n → motive l := by
    intro n
    induction n with
    | zero =>
      intro l hl
      cases l with
      | nil => exact h0
      | cons x xs => simp at hl
    | succ n ih =>
      intro l hl
      match l with
      | [] => exact h0
      | [x] => exact h1 x
      | x :: y :: rest =>
        refine h2 x y rest (ih rest ?_)
        simp [List.length_cons] at hl
        omega
  exact fun l => key l.length l (le_refl _)

theorem pairedAcquires_append (tok : List Char → Nat) :
    ∀ a b : List ApiEvent,
      pairedAcquires tok a → pairedAcquires tok b → pairedAcquires tok (a ++ b) := by
  intro a
  induction a using list_two_step_induction with
  | h0 => intro b _ hb; simpa using hb
  | h1 x =>
    intro b ha _
    cases x <;> simp [pairedAcquires] at ha
  | h2 x y rest ih =>
    intro b ha hb
    cases x with
    | acq n =>
      cases y with
      | acq m => simp [pairedAcquires] at ha
      | outbound p =>
        obtain ⟨hn, hrest⟩ := ha
        exact ⟨hn, ih b hrest hb⟩
    | outbound p => simp [pairedAcquires] at ha

theorem chunkLoop_paired (tok : List Char → Nat) (llm : List Char → List Char) (n : Nat) :
    ∀ l, pairedAcquires tok (chunkLoop tok llm n l).2.2 := by
  intro l
  induction l with
  | nil => simp [chunkLoop, pairedAcquires]
  | cons ic rest ih =>
    obtain ⟨i, chunk⟩ := ic
    refine pairedAcquires_append tok _ _ ?_ ih
    exact ⟨rfl, trivial⟩

/-- Claim C6 (refuted): the estimated token cost passed to
`RateLimiter.acquire` is *not* `ceil(1.5 × tokens(prompt))`.  With the
one-token-per-character oracle and the one-character prompt `"a"`, the
code's `int(1.5 * count_tokens(prompt))` passes 1 token to `acquire`,
whereas `ceil(1.5 × 1) = (3·1 + 1) / 2 = 2`. -/
theorem call_openai_estimate_not_ceil :
    (callOpenAI lenTok (fun s => s) "a".toList).2 =
      [ApiEvent.acq 1, ApiEvent.outbound "a".toList] ∧
    (3 * lenTok "a".toList + 1) / 2 = 2 ∧ (1 : Nat) ≠ 2 := by
  refine ⟨by decide, by decide, by decide⟩

/-- Claim C6 (amended): for every prompt, the request executor computes
the estimated token cost as `int(1.5 × tokens(prompt)) = ⌊3·tokens/2⌋`
(truncating, not ceiling) and passes exactly that value to
`RateLimiter.acquire` immediately before the outbound call: every event
trace produced by `summarize` consists of (acquire, outbound) pairs in
which the acquired amount is exactly `⌊3·tokens(prompt)/2⌋` of the prompt
of the immediately following outbound call. -/
theorem summarize_acquires_floor_estimate (tok : List Char → Nat)
    (llm : List Char → List Char) (fuel : Nat) (mt rb cb : Int)
    (content : List Char) (run : SummaryRun)
    (h : summarize tok llm fuel mt rb cb content = some run) :
    pairedAcquires tok run.events := by
  unfold summarize at h
  revert h
  cases hseg : segment_text tok fuel content mt rb cb [] with
  | none => intro h; cases h
  | some chunks =>
    intro h
    dsimp only at h
    split at h
    · cases h
      refine pairedAcquires_append tok _ _ (chunkLoop_paired tok llm _ _) ?_
      exact ⟨rfl, trivial⟩
    · cases h
      exact chunkLoop_paired tok llm _ _

/-- Witness for the amended C6 on a concrete run. -/
theorem summarize_acquires_floor_estimate_witness :
    ∃ run, summarize lenTok (fun s => s) 1 100 10 0 "hi".toList = some run ∧
      pairedAcquires lenTok run.events := by
  obtain ⟨run, hr⟩ :
      ∃ run, summarize lenTok (fun s => s) 1 100 10 0 "hi".toList = some run := ⟨_, rfl⟩
  exact ⟨run, hr, summarize_acquires_floor_estimate _ _ _ _ _ _ _ _ hr⟩

theorem countOutbound_append (a b : List ApiEvent) :
    countOutbound (a ++ b) = countOutbound a + countOutbound b := by
  simp [countOutbound, List.filter_append]

theorem chunkLoop_countOutbound (tok : List Char → Nat) (llm : List Char → List Char)
    (n : Nat) : ∀ l, countOutbound (chunkLoop tok llm n l).2.2 = l.length := by
  intro l
  induction l with
  | nil => simp [chunkLoop, countOutbound]
  | cons ic rest ih =>
    obtain ⟨i, chunk⟩ := ic
    show countOutbound (_ ++ (chunkLoop tok llm n rest).2.2) = _
    rw [countOutbound_append, ih]
    simp [countOutbound, callOpenAI, List.filter]
    omega

theorem chunkLoop_length (tok : List Char → Nat) (llm : List Char → List Char)
    (n : Nat) : ∀ l, (chunkLoop tok llm n l).1.length = l.length := by
  intro l
  induction l with
  | nil => rfl
  | cons ic rest ih =>
    obtain ⟨i, chunk⟩ := ic
    show ((callOpenAI tok llm _).1 :: (chunkLoop tok llm n rest).1).length = _
    simp [ih]

/-- Claim C7: on an input that segments into exactly two chunks,
`summarize` issues exactly 3 outbound LLM calls (one per chunk plus one
consolidation); on an input that segments into exactly one chunk, it
issues exactly 1 outbound call and no consolidation call, and the single
chunk summary is the final result text. -/
theorem summarize_call_counts (tok : List Char → Nat)
    (llm : List Char → List Char) (fuel : Nat) (mt rb cb : Int)
    (content : List Char) (chunks : List (List Char)) (run : SummaryRun)
    (hseg : segment_text tok fuel content mt rb cb [] = some chunks)
    (h : summarize tok llm fuel mt rb cb content = some run) :
    (chunks.length = 2 → countOutbound run.events = 3) ∧
    (chunks.length = 1 →
      countOutbound run.events = 1 ∧
      run.text = llm (build_chunk_prompt (chunks.headD []) 1 1)) := by
  unfold summarize at h
  rw [hseg] at h
  dsimp only at h
  have hL : (chunks.enum.map (fun p => (p.1 + 1, p.2))).length = chunks.length := by
    simp
  constructor
  · intro h2
    have hlen : (chunkLoop tok llm chunks.length
        (chunks.enum.map (fun p => (p.1 + 1, p.2)))).1.length > 1 := by
      rw [chunkLoop_length, hL, h2]
      omega
    rw [if_pos hlen] at h
    cases h
    show countOutbound (_ ++ (callOpenAI tok llm _).2) = 3
    rw [countOutbound_append, chunkLoop_countOutbound, hL, h2]
    simp [countOutbound, callOpenAI, List.filter]
  · intro h1
    cases chunks with
    | nil => simp at h1
    | cons c cs =>
      cases cs with
      | cons d ds => simp at h1
      | nil =>
        have hlen : ¬ ((chunkLoop tok llm [c].length
            ([c].enum.map (fun p => (p.1 + 1, p.2)))).1.length > 1) := by
          rw [chunkLoop_length]
          simp
        rw [if_neg hlen] at h
        cases h
        constructor
        · show countOutbound (chunkLoop tok llm _ _).2.2 = 1
          rw [chunkLoop_countOutbound]
          simp
        · rfl

/-- Witness for C7 on the concrete two-chunk input `"aaaa bbbb cc"`. -/
theorem summarize_call_counts_witness :
    segment_text lenTok 13 "aaaa bbbb cc".toList 12 2 0 [] =
      some ["aaaa bbbb".toList, "cc".toList] ∧
    ∃ run, summarize lenTok (fun s => s) 13 12 2 0 "aaaa bbbb cc".toList = some run ∧
      countOutbound run.events = 3 := by
  have hseg : segment_text lenTok 13 "aaaa bbbb cc".toList 12 2 0 [] =
      some ["aaaa bbbb".toList, "cc".toList] := by decide
  obtain ⟨run, hr⟩ :
      ∃ run, summarize lenTok (fun s => s) 13 12 2 0 "aaaa bbbb cc".toList = some run :=
    ⟨_, rfl⟩
  refine ⟨hseg, run, hr, ?_⟩
  exact (summarize_call_counts lenTok (fun s => s) 13 12 2 0 _ _ run hseg hr).1 rfl

/-! ## Event extraction (`src/tldr/calendar/events.py`)

The pattern
`Event Detected:\s*(.+?)\s+on\s+(\d{4}-\d{2}-\d{2})\s+at\s+(\d{2}:\d{2})\s+at\s+(.+?)(?:\n|$)`
is embedded as a backtracking matcher over lists of successes ordered by
Python's preference (lazy groups shortest first, greedy repetitions
longest first, alternation left first); the head of the list is the match
`re` reports.  `re.findall` is the left-to-right scan that resumes after
each match. -/

/-- The regex `.` (no DOTALL): any character except a newline. -/
def reDot (c : Char) : Bool := !(c == '\n')

/-- A literal: matches exactly its own text. -/
def litP (pat s : List Char) : List (Unit × List Char) :=
  if pat.isPrefixOf s then [((), s.drop pat.length)] else []

/-- All splits of `s` into a prefix of characters satisfying `p` and a
remainder, in order of increasing prefix length (empty prefix first). -/
def spanChoices (p : Char → Bool) : List Char → List (List Char × List Char)
  | [] => [([], [])]
  | c :: t =>
    ([], c :: t) ::
      (if p c then (spanChoices p t).map (fun r => (c :: r.1, r.2)) else [])

/-- Lazy `+` on a character class: nonempty matches, shortest first. -/
def lazyPlus (p : Char → Bool) (s : List Char) : List (List Char × List Char) :=
  (spanChoices p s).filter (fun r => !r.1.isEmpty)

/-- Greedy `+` on a character class: nonempty matches, longest first. -/
def greedyPlus (p : Char → Bool) (s : List Char) : List (List Char × List Char) :=
  (lazyPlus p s).reverse

/-- Greedy `*` on a character class: matches, longest first. -/
def greedyStar (p : Char → Bool) (s : List Char) : List (List Char × List Char) :=
  (spanChoices p s).reverse

/-- `(?:\n|$)`: a newline (consumed, preferred) or the end of the string. -/
def endAlt (s : List Char) : List (Unit × List Char) :=
  (match s with
    | '\n' :: t => [((), t)]
    | _ => []) ++
  (match s with
    | [] => [((), ([] : List Char))]
    | _ => [])

/-- `\d{4}-\d{2}-\d{2}` as one fixed-shape matcher. -/
def matchDate (s : List Char) : List (List Char × List Char) :=
  match s with
  | a :: b :: c :: d :: e :: f :: g :: h :: i :: j :: rest =>
    if a.isDigit && b.isDigit && c.isDigit && d.isDigit && e == '-' &&
        f.isDigit && g.isDigit && h == '-' && i.isDigit && j.isDigit then
      [([a, b, c, d, e, f, g, h, i, j], rest)]
    else []
  | _ => []

/-- `\d{2}:\d{2}` as one fixed-shape matcher. -/
def matchTime (s : List Char) : List (List Char × List Char) :=
  match s with
  | a :: b :: c :: d :: e :: rest =>
    if a.isDigit && b.isDigit && c == ':' && d.isDigit && e.isDigit then
      [([a, b, c, d, e], rest)]
    else []
  | _ => []

/-- The four capture groups of one regex match, before stripping. -/
structure RawEvent where
  name : List Char
  date : List Char
  time : List Char
  loc : List Char
deriving DecidableEq

/-- Sequencing of list-of-successes matchers (depth-first backtracking). -/
def bindP {α β : Type} (xs : List (α × List Char))
    (f : α → List Char → List (β × List Char)) : List (β × List Char) :=
  xs.flatMap (fun r => f r.1 r.2)

/-- The event pattern of `detect_events` (events.py line 35) matched at
the current position; the head of the result is the match Python's `re`
reports. -/
def matchEventAt (s : List Char) : List (RawEvent × List Char) :=
  bindP (litP "Event Detected:".toList s) fun _ s1 =>
  bindP (greedyStar pyWS s1) fun _ s2 =>
  bindP (lazyPlus reDot s2) fun name s3 =>
  bindP (greedyPlus pyWS s3) fun _ s4 =>
  bindP (litP "on".toList s4) fun _ s5 =>
  bindP (greedyPlus pyWS s5) fun _ s6 =>
  bindP (matchDate s6) fun date s7 =>
  bindP (greedyPlus pyWS s7) fun _ s8 =>
  bindP (litP "at".toList s8) fun _ s9 =>
  bindP (greedyPlus pyWS s9) fun _ s10 =>
  bindP (matchTime s10) fun time s11 =>
  bindP (greedyPlus pyWS s11) fun _ s12 =>
  bindP (litP "at".toList s12) fun _ s13 =>
  bindP (greedyPlus pyWS s13) fun _ s14 =>
  bindP (lazyPlus reDot s14) fun loc s15 =>
  (endAlt s15).map (fun r => (⟨name, date, time, loc⟩, r.2))

/-- `re.findall(pattern, text)`: scan left to right, resuming after each
match (every match consumes at least the 15-character literal, so the scan
advances).  Fuel-indexed; `none` on exhaustion, never reached with fuel
greater than the text length. -/
def findEvents : Nat → List Char → Option (List RawEvent)
  | 0, _ => none
  | fuel+1, s =>
    match (matchEventAt s).head? with
    | some r => (findEvents fuel r.2).map (fun l => r.1 :: l)
    | none =>
      match s with
      | [] => some []
      | _ :: t => findEvents fuel t

/-- Gregorian leap year, as `datetime` uses. -/
def isLeap (y : Nat) : Bool := y % 4 == 0 && (y % 100 != 0 || y % 400 == 0)

/-- Days in a month, as `datetime` validates them. -/
def daysInMonth (y m : Nat) : Nat :=
  if m == 2 then (if isLeap y then 29 else 28)
  else if m == 4 || m == 6 || m == 9 || m == 11 then 30
  else 31

/-- Decimal value of a digit string. -/
def digitsToNat (l : List Char) : Nat :=
  l.foldl (fun a c => 10 * a + (c.toNat - '0'.toNat)) 0

structure PyDateTime where
  year : Nat
  month : Nat
  day : Nat
  hour : Nat
  minute : Nat
deriving DecidableEq

/-- `datetime.strptime(f"{date} {time}", "%Y-%m-%d %H:%M")` (events.py
line 83), on the zero-padded digit shapes `\d{4}-\d{2}-\d{2}` and
`\d{2}:\d{2}` that `detect_events` passes: `ValueError` (modelled as
`Except.error ()`) exactly when the digit-shaped fields do not form a
valid calendar date-time (`datetime` requires `1 ≤ year`,
`1 ≤ month ≤ 12`, `1 ≤ day ≤ days-in-month`, `hour ≤ 23`,
`minute ≤ 59`). -/
def strptimeDT (date time : List Char) : Except Unit PyDateTime :=
  match date, time with
  | [a, b, c, d, e, f, g, h, i, j], [k, l, m, n, o] =>
    if a.isDigit && b.isDigit && c.isDigit && d.isDigit && e == '-' &&
        f.isDigit && g.isDigit && h == '-' && i.isDigit && j.isDigit &&
        k.isDigit && l.isDigit && m == ':' && n.isDigit && o.isDigit then
      let y := digitsToNat [a, b, c, d]
      let mo := digitsToNat [f, g]
      let dd := digitsToNat [i, j]
      let hh := digitsToNat [k, l]
      let mi := digitsToNat [n, o]
      if 1 ≤ y ∧ 1 ≤ mo ∧ mo ≤ 12 ∧ 1 ≤ dd ∧ dd ≤ daysInMonth y mo ∧
          hh ≤ 23 ∧ mi ≤ 59 then
        Except.ok ⟨y, mo, dd, hh, mi⟩
      else Except.error ()
    else Except.error ()
  | _, _ => Except.error ()

/-- Decimal digits of a natural number. -/
def natDigitsList (n : Nat) : List Char := (toString n).toList

/-- Left pad with zeros to width `w`. -/
def padZero (w : Nat) (s : List Char) : List Char :=
  List.replicate (w - s.length) '0' ++ s

/-- `dt.strftime("%Y%m%dT%H%M00")` (events.py lines 87–88), zero-padded
fields. -/
def strftimeCompact (dt : PyDateTime) : List Char :=
  padZero 4 (natDigitsList dt.year) ++ padZero 2 (natDigitsList dt.month) ++
    padZero 2 (natDigitsList dt.day) ++
    'T' :: (padZero 2 (natDigitsList dt.hour) ++ padZero 2 (natDigitsList dt.minute) ++
      "00".toList)

/-- UTF-8 bytes of a character. -/
def utf8Bytes (c : Char) : List Nat :=
  let n := c.toNat
  if n < 128 then [n]
  else if n < 2048 then [192 + n / 64, 128 + n % 64]
  else if n < 65536 then [224 + n / 4096, 128 + n / 64 % 64, 128 + n % 64]
  else [240 + n / 262144, 128 + n / 4096 % 64, 128 + n / 64 % 64, 128 + n % 64]

/-- Uppercase hexadecimal digit. -/
def hexDigitUpper (n : Nat) : Char :=
  if n < 10 then Char.ofNat ('0'.toNat + n) else Char.ofNat ('A'.toNat + n - 10)

/-- `urllib.parse.quote_plus`: ASCII alphanumerics and `_.-~` are kept, a
space becomes `+`, and every other character's UTF-8 bytes are
percent-encoded with uppercase hex — in particular `/` becomes `%2F`. -/
def quotePlus (s : List Char) : List Char :=
  s.flatMap (fun c =>
    if c.isAlphanum || c == '_' || c == '.' || c == '-' || c == '~' then [c]
    else if c == ' ' then ['+']
    else (utf8Bytes c).flatMap (fun b => ['%', hexDigitUpper (b / 16), hexDigitUpper (b % 16)]))

/-- `urllib.parse.urlencode` on an ordered key/value list:
`quote_plus(key)=quote_plus(value)` pairs joined with `&`. -/
def urlencode (ps : List (List Char × List Char)) : List Char :=
  joinSep ['&'] (ps.map (fun p => quotePlus p.1 ++ '=' :: quotePlus p.2))

/-- `generate_calendar_link(name, date, time, location, duration_hours)`
(events.py lines 62–100).  After parsing,
`start_dt.replace(hour=start_dt.hour + duration_hours)` raises
`ValueError` unless the new hour is in `0..23`, so the link exists exactly
when `hour + duration_hours ≤ 23`; the end timestamp keeps the same date
with only the hour replaced. -/
def generate_calendar_link (name date time location : List Char)
    (duration_hours : Nat) : Except Unit (List Char) :=
  match strptimeDT date time with
  | Except.error e => Except.error e
  | Except.ok start_dt =>
    if start_dt.hour + duration_hours ≤ 23 then
      Except.ok
        ("https://calendar.google.com/calendar/render?".toList ++
          urlencode
            [("action".toList, "TEMPLATE".toList),
             ("text".toList, name),
             ("dates".toList,
               strftimeCompact start_dt ++
                 '/' :: strftimeCompact
                   ⟨start_dt.year, start_dt.month, start_dt.day,
                     start_dt.hour + duration_hours, start_dt.minute⟩),
             ("details".toList, name),
             ("location".toList, location)])
    else Except.error ()

/-- An event record of `detect_events`. -/
structure DetectedEvent where
  name : List Char
  date : List Char
  time : List Char
  location : List Char
  calendar_link : List Char
deriving DecidableEq

/-- The `for match in matches` loop of `detect_events` (events.py lines
39–57): build each event's calendar link (default one-hour duration) from
the stripped name/location and the raw date/time, in order.  There is no
exception handling in the loop: a `ValueError` from
`generate_calendar_link` propagates immediately, discarding every event
(also the ones already built). -/
def buildEvents : List RawEvent → Except Unit (List DetectedEvent)
  | [] => Except.ok []
  | r :: rest =>
    match generate_calendar_link (pyStrip r.name) r.date r.time (pyStrip r.loc) 1 with
    | Except.error e => Except.error e
    | Except.ok link =>
      match buildEvents rest with
      | Except.error e => Except.error e
      | Except.ok evs =>
        Except.ok (⟨pyStrip r.name, r.date, r.time, pyStrip r.loc, link⟩ :: evs)

/-- `detect_events(text)` (events.py lines 22–59): find all matches left
to right, then run the event-building loop.  `none` only on fuel
exhaustion of the scan. -/
def detect_events (fuel : Nat) (text : List Char) :
    Option (Except Unit (List DetectedEvent)) :=
  match findEvents fuel text with
  | none => none
  | some raws => some (buildEvents raws)

/-- Substring test (`needle in haystack`). -/
def containsSub : List Char → List Char → Bool
  | needle, [] => needle.isEmpty
  | needle, c :: t => needle.isPrefixOf (c :: t) || containsSub needle t

deriving instance DecidableEq for Except

/-! ### The concrete extraction example (claim C8) -/

set_option maxRecDepth 100000 in
/-- Claim C8 (refuted in its link clause): on the example input,
`detect_events` returns exactly one event whose name, date, time and
location are as claimed, but the generated calendar link does *not*
contain the substring `dates=20240510T090000/20240510T100000`:
`urllib.parse.urlencode` percent-encodes the slash between the two
timestamps (its `quote_plus` has no safe characters), so no slash appears
in the `dates` parameter. -/
theorem detect_events_example_no_slash_in_dates :
    detect_events 100
      "Event Detected: Math Final on 2024-05-10 at 09:00 at Room 204".toList =
      some (Except.ok
        [⟨"Math Final".toList, "2024-05-10".toList, "09:00".toList, "Room 204".toList,
          "https://calendar.google.com/calendar/render?action=TEMPLATE&text=Math+Final&dates=20240510T090000%2F20240510T100000&details=Math+Final&location=Room+204".toList⟩]) ∧
    containsSub "dates=20240510T090000/20240510T100000".toList
      "https://calendar.google.com/calendar/render?action=TEMPLATE&text=Math+Final&dates=20240510T090000%2F20240510T100000&details=Math+Final&location=Room+204".toList
      = false := by
  exact ⟨by decide, by decide⟩

set_option maxRecDepth 100000 in
/-- Claim C8 (amended): for the input
`"Event Detected: Math Final on 2024-05-10 at 09:00 at Room 204"`,
`detect_events` returns exactly one event with name `"Math Final"`, date
`"2024-05-10"`, time `"09:00"`, location `"Room 204"`, and its generated
calendar link contains the URL-encoded timestamp range
`dates=20240510T090000%2F20240510T100000` (the start and the one-hour
later end, with the separating slash percent-encoded). -/
theorem detect_events_example_encoded_dates :
    detect_events 100
      "Event Detected: Math Final on 2024-05-10 at 09:00 at Room 204".toList =
      some (Except.ok
        [⟨"Math Final".toList, "2024-05-10".toList, "09:00".toList, "Room 204".toList,
          "https://calendar.google.com/calendar/render?action=TEMPLATE&text=Math+Final&dates=20240510T090000%2F20240510T100000&details=Math+Final&location=Room+204".toList⟩]) ∧
    containsSub "dates=20240510T090000%2F20240510T100000".toList
      "https://calendar.google.com/calendar/render?action=TEMPLATE&text=Math+Final&dates=20240510T090000%2F20240510T100000&details=Math+Final&location=Room+204".toList
      = true := by
  exact ⟨by decide, by decide⟩

/-! ### A malformed event aborts the whole extraction (claims C9, C10) -/

theorem buildEvents_error_of_mem (r : RawEvent) (raws : List RawEvent)
    (hr : r ∈ raws)
    (hlink : generate_calendar_link (pyStrip r.name) r.date r.time (pyStrip r.loc) 1 =
      Except.error ()) :
    buildEvents raws = Except.error () := by
  induction raws with
  | nil => cases hr
  | cons a t ih =>
    rcases List.mem_cons.mp hr with h | h
    · subst h
      unfold buildEvents
      rw [hlink]
    · unfold buildEvents
      cases hga : generate_calendar_link (pyStrip a.name) a.date a.time (pyStrip a.loc) 1 with
      | error e =>
        cases e
        rfl
      | ok link =>
        rw [ih h]

/-- Whether an `Except` computation succeeded. -/
def exceptIsOk {α : Type} : Except Unit α → Bool
  | Except.ok _ => true
  | Except.error _ => false

/-- Claim C9 (refuted): with two matched event blocks of which the second
has a digit-shaped but invalid date (month 13), the calendar-link failure
is *not* confined to that event: the first event is well-formed and its
link generation succeeds, yet `detect_events` propagates the `ValueError`
and produces no events at all — the other event is not extracted. -/
theorem detect_events_malformed_aborts_call :
    findEvents 200
      ("Event Detected: A on 2024-05-10 at 09:00 at X\nEvent Detected: B on 2024-13-10 at 09:00 at Y".toList) =
      some [⟨"A".toList, "2024-05-10".toList, "09:00".toList, "X".toList⟩,
            ⟨"B".toList, "2024-13-10".toList, "09:00".toList, "Y".toList⟩] ∧
    exceptIsOk (generate_calendar_link "A".toList "2024-05-10".toList "09:00".toList
      "X".toList 1) = true ∧
    detect_events 200
      ("Event Detected: A on 2024-05-10 at 09:00 at X\nEvent Detected: B on 2024-13-10 at 09:00 at Y".toList) =
      some (Except.error ()) := by
  exact ⟨by decide, by decide, by decide⟩

/-- Claim C9 (amended): a malformed (digit-shaped but calendar-invalid)
date or time in *any* matched event is a terminal error for the whole
`detect_events` call rather than for that single event: link generation is
not skipped per event — the date-parser error propagates, every event
(including the well-formed ones) is discarded, and no event list is
produced. -/
theorem detect_events_malformed_not_confined (fuel : Nat) (text : List Char)
    (raws : List RawEvent) (r : RawEvent)
    (hfind : findEvents fuel text = some raws) (hr : r ∈ raws)
    (hbad : strptimeDT r.date r.time = Except.error ()) :
    detect_events fuel text = some (Except.error ()) := by
  have hlink : generate_calendar_link (pyStrip r.name) r.date r.time (pyStrip r.loc) 1 =
      Except.error () := by
    unfold generate_calendar_link
    rw [hbad]
  unfold detect_events
  rw [hfind]
  dsimp only
  rw [buildEvents_error_of_mem r raws hr hlink]

/-- Witness for the amended C9 at the concrete two-event input. -/
theorem detect_events_malformed_not_confined_witness :
    findEvents 200
      ("Event Detected: A on 2024-05-10 at 09:00 at X\nEvent Detected: B on 2024-13-10 at 09:00 at Y".toList) =
      some [⟨"A".toList, "2024-05-10".toList, "09:00".toList, "X".toList⟩,
            ⟨"B".toList, "2024-13-10".toList, "09:00".toList, "Y".toList⟩] ∧
    (⟨"B".toList, "2024-13-10".toList, "09:00".toList, "Y".toList⟩ : RawEvent) ∈
      [(⟨"A".toList, "2024-05-10".toList, "09:00".toList, "X".toList⟩ : RawEvent),
       ⟨"B".toList, "2024-13-10".toList, "09:00".toList, "Y".toList⟩] ∧
    strptimeDT "2024-13-10".toList "09:00".toList = Except.error () ∧
    detect_events 200
      ("Event Detected: A on 2024-05-10 at 09:00 at X\nEvent Detected: B on 2024-13-10 at 09:00 at Y".toList) =
      some (Except.error ()) := by
  have hfind : findEvents 200
      ("Event Detected: A on 2024-05-10 at 09:00 at X\nEvent Detected: B on 2024-13-10 at 09:00 at Y".toList) =
      some [⟨"A".toList, "2024-05-10".toList, "09:00".toList, "X".toList⟩,
            ⟨"B".toList, "2024-13-10".toList, "09:00".toList, "Y".toList⟩] := by decide
  refine ⟨hfind, by decide, by decide, ?_⟩
  exact detect_events_malformed_not_confined 200 _ _
    ⟨"B".toList, "2024-13-10".toList, "09:00".toList, "Y".toList⟩
    hfind (by decide) (by decide)

/-- Claim C10: `generate_calendar_link` is partial on well-formed inputs:
when the date/time parse succeeds, it returns a URL exactly when the
parsed start hour plus `duration_hours` is at most 23, and raises (from
computing the end time by replacing the hour field) for every valid event
time of 23:00 or later — i.e. hour 23 — with the default 1-hour duration;
and since `detect_events` calls it per match without guarding, any event
whose link generation raises makes the whole extraction call fail. -/
theorem generate_calendar_link_partial_hour_bound
    (name date time location : List Char) (dur : Nat) (dt : PyDateTime)
    (hparse : strptimeDT date time = Except.ok dt)
    (fuel : Nat) (text : List Char) (raws : List RawEvent) (r : RawEvent)
    (hfind : findEvents fuel text = some raws) (hr : r ∈ raws)
    (hlate : generate_calendar_link (pyStrip r.name) r.date r.time (pyStrip r.loc) 1 =
      Except.error ()) :
    ((∃ link, generate_calendar_link name date time location dur = Except.ok link) ↔
      dt.hour + dur ≤ 23) ∧
    (dt.hour = 23 → generate_calendar_link name date time location 1 = Except.error ()) ∧
    detect_events fuel text = some (Except.error ()) := by
  refine ⟨?_, ?_, ?_⟩
  · constructor
    · rintro ⟨link, hl⟩
      by_contra hgt
      unfold generate_calendar_link at hl
      rw [hparse] at hl
      dsimp only at hl
      rw [if_neg hgt] at hl
      cases hl
    · intro hle
      cases hgen : generate_calendar_link name date time location dur with
      | ok link => exact ⟨link, rfl⟩
      | error e =>
        exfalso
        unfold generate_calendar_link at hgen
        rw [hparse] at hgen
        dsimp only at hgen
        rw [if_pos hle] at hgen
        cases hgen
  · intro h23
    unfold generate_calendar_link
    rw [hparse]
    dsimp only
    rw [if_neg (by omega)]
  · unfold detect_events
    rw [hfind]
    dsimp only
    rw [buildEvents_error_of_mem r raws hr hlate]

/-- Witness for C10: the event `"Late"` at 23:00 on 2024-05-10. -/
theorem generate_calendar_link_partial_hour_bound_witness :
    strptimeDT "2024-05-10".toList "23:00".toList =
      Except.ok ⟨2024, 5, 10, 23, 0⟩ ∧
    findEvents 100 "Event Detected: Late on 2024-05-10 at 23:00 at X".toList =
      some [⟨"Late".toList, "2024-05-10".toList, "23:00".toList, "X".toList⟩] ∧
    generate_calendar_link "Late".toList "2024-05-10".toList "23:00".toList "X".toList 1 =
      Except.error () ∧
    ((∃ link, generate_calendar_link "Late".toList "2024-05-10".toList "23:00".toList
        "X".toList 1 = Except.ok link) ↔ (23 : Nat) + 1 ≤ 23) ∧
    detect_events 100 "Event Detected: Late on 2024-05-10 at 23:00 at X".toList =
      some (Except.error ()) := by
  have hfind : findEvents 100 "Event Detected: Late on 2024-05-10 at 23:00 at X".toList =
      some [⟨"Late".toList, "2024-05-10".toList, "23:00".toList, "X".toList⟩] := by decide
  have hlate : generate_calendar_link "Late".toList "2024-05-10".toList "23:00".toList
      "X".toList 1 = Except.error () := by decide
  have h := generate_calendar_link_partial_hour_bound "Late".toList "2024-05-10".toList
    "23:00".toList "X".toList 1 ⟨2024, 5, 10, 23, 0⟩ (by decide) 100 _ _
    ⟨"Late".toList, "2024-05-10".toList, "23:00".toList, "X".toList⟩
    hfind (by decide) hlate
  exact ⟨by decide, hfind, hlate, h.1, h.2.2⟩
